import Mathlib

/-!
Shallow embedding of `bin/calculate-cost-basis.py` (rsu-tax repository):
the FX-rate range lookup (`attach_rate` / `find_rate`), the sales-CSV
column resolution (`_find_col` / `load_sales`), the timeline merge and
the Section-104 pool fold (`get_gains_and_holdings`), together with the
`main` pipeline that connects them.

Modelling conventions:
* Python floats are modelled as `Option ℚ`: `some q` is an ordinary
  (exact) value, `none` stands for IEEE NaN, which propagates through
  arithmetic and is truthy in Python (`float(nan or 0.0)` is NaN).
  NaN enters the pipeline exactly when `find_rate` returns no rate for
  an event date (pandas stores `None` as NaN and `usd / nan` is NaN).
  Share counts come from well-formed CSV numbers and are modelled as
  plain `ℚ`.  Per the data model the FX rates are positive, so the
  `inf` branch of float division (rate exactly `0.0`) is not modelled.
* Dates are day ordinals (`ℕ`); `datetime` comparison is `≤` on ℕ.
* A Python `raise` is an `Except.error`; `ZeroDivisionError` raised by
  `holdings_gbp * sold_units / holdings_units` when `holdings_units`
  is `0.0` is modelled explicitly, as is the `ValueError` raised after
  the oversell check (the stderr message carries the row index, which
  the error value records).
-/

namespace CostBasis

/-- Python float values carried by the program: `some q` an exact value,
`none` the NaN produced by a missing FX rate. -/
abbrev FV := Option ℚ

/-- Float addition; NaN propagates. -/
def fvAdd : FV → FV → FV
  | some a, some b => some (a + b)
  | _, _ => none

/-- Float subtraction; NaN propagates. -/
def fvSub : FV → FV → FV
  | some a, some b => some (a - b)
  | _, _ => none

/-- Multiply a float value by a (non-NaN) share count. -/
def fvMulQ : FV → ℚ → FV
  | some a, q => some (a * q)
  | none, _ => none

/-- Divide a float value by a (non-NaN, nonzero) share count. -/
def fvDivQ : FV → ℚ → FV
  | some a, q => some (a / q)
  | none, _ => none

/-- The `Type` column: `"Buy"` for releases, `"Sell"` for sales. -/
inductive EvKind where
  | Buy : EvKind
  | Sell : EvKind
deriving DecidableEq

/-- One row of the combined `events` frame, restricted to the columns the
pool fold reads: `Type`, `Issued`, `Sold`, `Price per share (GBP)`. -/
structure Event where
  kind : EvKind
  issued : ℚ
  sold : ℚ
  price_gbp : FV
deriving DecidableEq

/-- The running accumulator of `get_gains_and_holdings`:
`holdings_units` and `holdings_gbp` (both start at `0.0`). -/
structure PoolState where
  holdings_units : ℚ
  holdings_gbp : FV
deriving DecidableEq

/-- The exceptions `get_gains_and_holdings` can raise, with the row index:
`zeroDivision` is Python's `ZeroDivisionError` from
`holdings_gbp * sold_units / holdings_units` at `holdings_units == 0.0`;
`oversell` is the `ValueError` raised when `holdings_units < 0`. -/
inductive PoolError where
  | zeroDivision : ℕ → PoolError
  | oversell : ℕ → PoolError
deriving DecidableEq

/-- The pool starts empty: `holdings_units = 0.0`, `holdings_gbp = 0.0`. -/
def initState : PoolState := ⟨0, some 0⟩

/-- One iteration of the loop body of `get_gains_and_holdings` at row
index `i`: returns the new pool state and the gain appended for this row
(`0` for a Buy).  The value appended to `holdings_gbp_series` is in both
branches the post-update `holdings_gbp`, so it is recovered from the
returned state.  In the source the state is mutated before the oversell
check, but the raised exception discards everything, so the error result
carries no state. -/
def pool_step (i : ℕ) (st : PoolState) (e : Event) :
    Except PoolError (PoolState × FV) :=
  match e.kind with
  | .Buy =>
      -- holdings_gbp += issued_units * price_gbp; holdings_units += issued_units
      .ok (⟨st.holdings_units + e.issued,
            fvAdd st.holdings_gbp (fvMulQ e.price_gbp e.issued)⟩, some 0)
  | .Sell =>
      -- allowable_cost = holdings_gbp * sold_units / holdings_units
      -- (raises ZeroDivisionError when holdings_units == 0.0)
      if st.holdings_units = 0 then .error (.zeroDivision i)
      else
        let allowable := fvDivQ (fvMulQ st.holdings_gbp e.sold) st.holdings_units
        -- gain = sold_units * price_gbp - allowable_cost
        let gain := fvSub (fvMulQ e.price_gbp e.sold) allowable
        -- holdings_units -= sold_units; holdings_gbp -= allowable_cost
        let u := st.holdings_units - e.sold
        if u < 0 then .error (.oversell i)
        else .ok (⟨u, fvSub st.holdings_gbp allowable⟩, gain)

/-- The state part of the fold: the pool state after processing a list of
events starting at row index `i`. -/
def pool_run (i : ℕ) (st : PoolState) : List Event → Except PoolError PoolState
  | [] => .ok st
  | e :: es =>
      match pool_step i st e with
      | .error err => .error err
      | .ok (st', _) => pool_run (i + 1) st' es

/-- `get_gains_and_holdings` from an arbitrary row index and state:
returns `(gains_series, holdings_gbp_series)` or the raised exception. -/
def get_gains_and_holdings_from (i : ℕ) (st : PoolState) :
    List Event → Except PoolError (List FV × List FV)
  | [] => .ok ([], [])
  | e :: es =>
      match pool_step i st e with
      | .error err => .error err
      | .ok (st', gain) =>
          match get_gains_and_holdings_from (i + 1) st' es with
          | .error err => .error err
          | .ok (gs, hs) => .ok (gain :: gs, st'.holdings_gbp :: hs)

/-- `get_gains_and_holdings(events)`: the full fold from the empty pool. -/
def get_gains_and_holdings (events : List Event) :
    Except PoolError (List FV × List FV) :=
  get_gains_and_holdings_from 0 initState events

/-- One row of the exchange-rates table: `Start_dt`, `End_dt` (inclusive)
and the `Currency units per £1` rate. -/
structure FxRange where
  startd : ℕ
  endd : ℕ
  rate : ℚ
deriving DecidableEq

/-- `find_rate(d)` inside `attach_rate`: scan the ranges in row order and
return the rate of the first range with `Start_dt <= d <= End_dt`;
return `None` when no range covers `d`. -/
def find_rate (ranges : List FxRange) (d : ℕ) : Option ℚ :=
  match ranges with
  | [] => none
  | r :: rs => if r.startd ≤ d ∧ d ≤ r.endd then some r.rate else find_rate rs d

/-- `CANDIDATE_DATE` from the source. -/
def CANDIDATE_DATE : List String := ["date", "sale date", "transaction date"]

/-- `CANDIDATE_SHARES` from the source. -/
def CANDIDATE_SHARES : List String :=
  ["shares", "quantity", "units", "issued", "shares sold", "qty"]

/-- `CANDIDATE_PRICE` from the source. -/
def CANDIDATE_PRICE : List String :=
  ["price per share ($)", "priceusd", "price", "sale price", "sale price ($)"]

/-- Python substring containment `needle in hay` on character lists. -/
def strIn (needle : List Char) : List Char → Bool
  | [] => needle.isEmpty
  | c :: t => needle.isPrefixOf (c :: t) || strIn needle t

/-- Python `s.lower()`, on the character list (the columns and
candidates in play are ASCII, where per-character lowercasing agrees
with Python). -/
def pyLower (s : String) : List Char :=
  s.data.map Char.toLower

/-- Access `lc[key]` for `lc = {c.lower(): c for c in cols}`: for duplicate
lowercased names the dict comprehension keeps the last column. -/
def lcDictGet (cols : List String) (key : String) : Option String :=
  cols.reverse.find? (fun c => pyLower c == key.data)

/-- `_find_col(cols, candidates)`: first scan the candidates in priority
order for an exact case-insensitive match, then fall back to the first
column whose lowercase form contains some candidate as a substring. -/
def find_col (cols candidates : List String) : Option String :=
  match candidates.find? (fun cand => cols.any (fun c => pyLower c == cand.data)) with
  | some cand => lcDictGet cols cand
  | none =>
      cols.find? (fun c => candidates.any (fun cand => strIn cand.data (pyLower c)))

/-- The `ValueError` of `load_sales`, carrying the full list of columns
found in the CSV (the message interpolates `cols`). -/
inductive SchemaError where
  | missingColumns : List String → SchemaError
deriving DecidableEq

/-- The schema-resolution part of `load_sales`: resolve the date, shares
and price columns, or raise listing every available column.  (The Python
test is `not date_col`, which would also fire on an empty column name,
but `_find_col` can only return a column matching or containing one of
the nonempty candidates, never the empty string.) -/
def load_sales_schema (cols : List String) :
    Except SchemaError (String × String × String) :=
  match find_col cols CANDIDATE_DATE, find_col cols CANDIDATE_SHARES,
      find_col cols CANDIDATE_PRICE with
  | some d, some s, some p => .ok (d, s, p)
  | _, _, _ => .error (.missingColumns cols)

/-- A releases-CSV row after main's own column checks and date parsing:
`Date`, `Granted`, `Sold`, `Issued`, `Price per share ($)`. -/
structure RawRelease where
  date : ℕ
  granted : ℚ
  sold : ℚ
  issued : ℚ
  price_usd : ℚ
deriving DecidableEq

/-- A sales row as produced by `load_sales` from the resolved columns:
`Date`, `Sold`, `Price per share ($)`. -/
structure RawSale where
  date : ℕ
  sold : ℚ
  price_usd : ℚ
deriving DecidableEq

/-- The sales CSV handed to `load_sales`: its column names, and the row
values of the resolved columns (pandas row extraction abstracted). -/
structure SalesInput where
  cols : List String
  rows : List RawSale
deriving DecidableEq

/-- One row of the aligned frames combined by main: `Type`, `Date_dt`,
`Granted`, `Sold`, `Issued`, `Price per share ($)`, `GBP/USD`. -/
structure Row where
  kind : EvKind
  date : ℕ
  granted : ℚ
  sold : ℚ
  issued : ℚ
  price_usd : ℚ
  gbp_usd : Option ℚ
deriving DecidableEq

/-- A releases row with `Type = "Buy"` and its rate attached by
`attach_rate` (i.e. `find_rate` on its date). -/
def releaseToRow (ranges : List FxRange) (r : RawRelease) : Row :=
  ⟨.Buy, r.date, r.granted, r.sold, r.issued, r.price_usd, find_rate ranges r.date⟩

/-- A sales row with `Type = "Sell"`, `Granted = Issued = 0.0`, and its
rate attached by `attach_rate`. -/
def saleToRow (ranges : List FxRange) (s : RawSale) : Row :=
  ⟨.Sell, s.date, 0, s.sold, 0, s.price_usd, find_rate ranges s.date⟩

/-- `pd.concat([rel, s])` followed by `events.sort_values(DATE_DT)`. -/
def timeline_merge (rel sal : List Row) : List Row :=
  (rel ++ sal).mergeSort (fun a b => a.date ≤ b.date)

/-- `events[PRICE_GBP] = events[USD_PRICE] / events[GBP_USD]`: a missing
(NaN) rate gives a NaN price. -/
def derivePrice (usd : ℚ) (rate : Option ℚ) : FV :=
  rate.map (fun x => usd / x)

/-- Project a combined row to the columns the pool fold reads, after the
`Price per share (GBP)` column has been computed. -/
def toEvent (r : Row) : Event :=
  ⟨r.kind, r.issued, r.sold, derivePrice r.price_usd r.gbp_usd⟩

/-- The exceptions `main` can raise downstream of the releases checks. -/
inductive RunError where
  | schema : List String → RunError
  | pool : PoolError → RunError
deriving DecidableEq

/-- The tail of `main`: sort the combined rows, compute the GBP price
column, run the pool fold, and return the annotated rows (the exception
from the fold propagates, so no rows are produced on error). -/
def runEvents (rel sal : List Row) :
    Except RunError (List Event × List FV × List FV) :=
  let events := (timeline_merge rel sal).map toEvent
  match get_gains_and_holdings events with
  | .error e => .error (.pool e)
  | .ok (gs, hs) => .ok (events, gs, hs)

/-- `main` from the point where the releases frame is loaded and checked:
attach rates to releases, optionally load the sales CSV (resolving its
schema first, before any sales FX lookup and before the fold), combine,
sort, and fold. -/
def mainRun (releases : List RawRelease) (sales : Option SalesInput)
    (ranges : List FxRange) : Except RunError (List Event × List FV × List FV) :=
  let rel := releases.map (releaseToRow ranges)
  match sales with
  | none => runEvents rel []
  | some si =>
      match load_sales_schema si.cols with
      | .error (.missingColumns found) => .error (.schema found)
      | .ok _ => runEvents rel (si.rows.map (saleToRow ranges))

/-! Helper lemmas about the fold. -/

theorem pool_run_append (l₁ l₂ : List Event) (i : ℕ) (st : PoolState) :
    pool_run i st (l₁ ++ l₂) =
      match pool_run i st l₁ with
      | .error e => .error e
      | .ok st' => pool_run (i + l₁.length) st' l₂ := by
  induction l₁ generalizing i st with
  | nil => simp [pool_run]
  | cons e es ih =>
      simp only [List.cons_append, pool_run, List.length_cons]
      cases h : pool_step i st e with
      | error err => rfl
      | ok p =>
          obtain ⟨st1, g1⟩ := p
          dsimp only
          simp only [List.append_eq]
          rw [ih]
          have hh : i + 1 + es.length = i + (es.length + 1) := by omega
          rw [hh]

/-- The list fold and the state fold succeed together and raise the same
exception. -/
theorem gg_run_rel (es : List Event) (i : ℕ) (st : PoolState) :
    (∃ r st', get_gains_and_holdings_from i st es = .ok r ∧
        pool_run i st es = .ok st') ∨
    (∃ e, get_gains_and_holdings_from i st es = .error e ∧
        pool_run i st es = .error e) := by
  induction es generalizing i st with
  | nil => exact .inl ⟨([], []), st, rfl, rfl⟩
  | cons e es ih =>
      simp only [get_gains_and_holdings_from, pool_run]
      cases h : pool_step i st e with
      | error err => exact .inr ⟨err, rfl, rfl⟩
      | ok p =>
          obtain ⟨st1, g1⟩ := p
          dsimp only
          rcases ih (i + 1) st1 with ⟨⟨gs, hs⟩, st', h₁, h₂⟩ | ⟨err, h₁, h₂⟩
          · rw [h₁, h₂]
            exact .inl ⟨(g1 :: gs, st1.holdings_gbp :: hs), st', rfl, rfl⟩
          · rw [h₁, h₂]
            exact .inr ⟨err, rfl, rfl⟩

theorem gg_from_error_of_pool_run (es : List Event) (i : ℕ) (st : PoolState)
    (e : PoolError) (h : pool_run i st es = .error e) :
    get_gains_and_holdings_from i st es = .error e := by
  rcases gg_run_rel es i st with ⟨r, st', _, h₂⟩ | ⟨err, h₁, h₂⟩
  · rw [h] at h₂
    exact absurd h₂ (by simp)
  · rw [h] at h₂
    cases h₂
    exact h₁

theorem pool_run_ok_of_gg (es : List Event) (i : ℕ) (st : PoolState)
    (r : List FV × List FV) (h : get_gains_and_holdings_from i st es = .ok r) :
    ∃ st', pool_run i st es = .ok st' := by
  rcases gg_run_rel es i st with ⟨r', st', _, h₂⟩ | ⟨err, h₁, _⟩
  · exact ⟨st', h₂⟩
  · rw [h] at h₁
    exact absurd h₁ (by simp)

/-- A successful run restricted to a prefix also succeeds. -/
theorem pool_run_take (es : List Event) (i : ℕ) (st st'' : PoolState)
    (h : pool_run i st es = .ok st'') (n : ℕ) :
    ∃ st', pool_run i st (es.take n) = .ok st' := by
  have hsplit := pool_run_append (es.take n) (es.drop n) i st
  rw [List.take_append_drop] at hsplit
  cases hrun : pool_run i st (es.take n) with
  | error err =>
      rw [h, hrun] at hsplit
      exact absurd hsplit (by simp)
  | ok st' => exact ⟨st', rfl⟩

/-- A successful step from a state with non-negative units, on an event
with non-negative share counts, keeps units non-negative (a Buy adds a
non-negative count; a Sell that passed the oversell check left
`holdings_units ≥ 0` by that very check). -/
theorem pool_step_nonneg (i : ℕ) (st st' : PoolState) (e : Event) (gain : FV)
    (hu : 0 ≤ st.holdings_units) (hi : e.kind = EvKind.Buy → 0 ≤ e.issued)
    (h : pool_step i st e = .ok (st', gain)) : 0 ≤ st'.holdings_units := by
  cases hk : e.kind with
  | Buy =>
      simp only [pool_step, hk] at h
      cases h
      simpa using add_nonneg hu (hi hk)
  | Sell =>
      simp only [pool_step, hk] at h
      by_cases h0 : st.holdings_units = 0
      · simp [h0] at h
      · simp only [h0, if_false] at h
        by_cases hov : st.holdings_units - e.sold < 0
        · simp [hov] at h
        · simp only [hov, if_false, Except.ok.injEq, Prod.mk.injEq] at h
          rw [← h.1]
          simpa using le_of_not_lt hov

/-- A run over Buy rows only never raises: units and pool cost just
accumulate. -/
theorem pool_run_buys (es : List Event) (i : ℕ) (u : ℚ) (g : FV)
    (hbuy : ∀ e ∈ es, e.kind = .Buy) :
    pool_run i ⟨u, g⟩ es =
      .ok ⟨u + (es.map Event.issued).sum,
           es.foldl (fun a e => fvAdd a (fvMulQ e.price_gbp e.issued)) g⟩ := by
  induction es generalizing i u g with
  | nil => simp [pool_run]
  | cons e es ih =>
      have hk := hbuy e (by simp)
      simp only [pool_run, pool_step, hk]
      rw [ih (i + 1) (u + e.issued) _ (fun e' he' => hbuy e' (by simp [he']))]
      simp [add_assoc]

/-- The gains list of a pure-Buy run is all zeros. -/
theorem gg_from_buys (es : List Event) (i : ℕ) (st : PoolState)
    (hbuy : ∀ e ∈ es, e.kind = .Buy) :
    ∃ hs, get_gains_and_holdings_from i st es =
      .ok (es.map (fun _ => (some 0 : FV)), hs) := by
  induction es generalizing i st with
  | nil => exact ⟨[], rfl⟩
  | cons e es ih =>
      have hk := hbuy e (by simp)
      obtain ⟨hs, hh⟩ := ih (i + 1)
        ⟨st.holdings_units + e.issued,
         fvAdd st.holdings_gbp (fvMulQ e.price_gbp e.issued)⟩
        (fun e' he' => hbuy e' (by simp [he']))
      refine ⟨fvAdd st.holdings_gbp (fvMulQ e.price_gbp e.issued) :: hs, ?_⟩
      simp only [get_gains_and_holdings_from, pool_step, hk]
      rw [hh]
      simp

/-- Evaluate the pool-cost fold when every price is an actual value. -/
theorem foldl_fvAdd_some (es : List Event) (price : Event → ℚ) (g : ℚ)
    (hp : ∀ e ∈ es, e.price_gbp = some (price e)) :
    es.foldl (fun a e => fvAdd a (fvMulQ e.price_gbp e.issued)) (some g) =
      some (g + (es.map (fun e => e.issued * price e)).sum) := by
  induction es generalizing g with
  | nil => simp
  | cons e es ih =>
      have hpe := hp e (by simp)
      simp only [List.foldl_cons, hpe]
      have h1 : fvAdd (some g) (fvMulQ (some (price e)) e.issued)
          = some (g + price e * e.issued) := rfl
      rw [h1, ih _ (fun e' he' => hp e' (by simp [he']))]
      simp only [List.map_cons, List.sum_cons, Option.some.injEq]
      ring

/-- `find_rate` on a date no range covers. -/
theorem find_rate_none (ranges : List FxRange) (d : ℕ)
    (h : ∀ r ∈ ranges, ¬(r.startd ≤ d ∧ d ≤ r.endd)) :
    find_rate ranges d = none := by
  induction ranges with
  | nil => rfl
  | cons r rs ih =>
      simp only [find_rate, if_neg (h r (by simp))]
      exact ih (fun r' hr' => h r' (by simp [hr']))

/-- A run whose sales input is absent consists of Buy rows only, and
therefore always completes. -/
theorem mainRun_releases_ok (releases : List RawRelease) (ranges : List FxRange) :
    ∃ out, mainRun releases none ranges = .ok out := by
  have hbuy : ∀ e ∈ (timeline_merge (releases.map (releaseToRow ranges)) []).map toEvent,
      e.kind = EvKind.Buy := by
    intro e he
    rcases List.mem_map.mp he with ⟨r, hr, rfl⟩
    have hr' : r ∈ releases.map (releaseToRow ranges) ++ ([] : List Row) :=
      (List.mergeSort_perm _ _).subset hr
    rcases List.mem_map.mp (by simpa using hr') with ⟨q, _, rfl⟩
    rfl
  obtain ⟨hs, hh⟩ := gg_from_buys _ 0 initState hbuy
  refine ⟨((timeline_merge (releases.map (releaseToRow ranges)) []).map toEvent,
    ((timeline_merge (releases.map (releaseToRow ranges)) []).map toEvent).map
      (fun _ => (some 0 : FV)), hs), ?_⟩
  simp only [mainRun, runEvents, get_gains_and_holdings]
  rw [hh]

/-! Claim theorems. -/

/-- Claim C3: for every Dispose event processed (from a pool with
`unitsHeld_before > 0`, with actual values for price and pool cost, and
passing the oversell check so that the row is emitted), the emitted
realized gain equals `units * priceHome - poolCostHome_before * units /
unitsHeld_before`, and the pool is updated exactly by
`unitsHeld -= units` and `poolCostHome -= allowableCost`. -/
theorem dispose_gain_identity (i : ℕ) (st : PoolState) (e : Event) (g p : ℚ)
    (hk : e.kind = EvKind.Sell) (hu : 0 < st.holdings_units)
    (hg : st.holdings_gbp = some g) (hp : e.price_gbp = some p)
    (hns : e.sold ≤ st.holdings_units) :
    pool_step i st e =
      .ok (⟨st.holdings_units - e.sold,
            some (g - g * e.sold / st.holdings_units)⟩,
           some (e.sold * p - g * e.sold / st.holdings_units)) := by
  simp only [pool_step, hk, hg, hp]
  rw [if_neg (ne_of_gt hu), if_neg (not_lt.mpr (by linarith))]
  simp only [fvMulQ, fvDivQ, fvSub, Except.ok.injEq, Prod.mk.injEq,
    PoolState.mk.injEq, Option.some.injEq]
  exact ⟨trivial, by ring⟩

/-- Witness for C3: Scenario A's disposal, 60 units at home price 15 from
the pool (1600, 150): gain 260, pool afterwards (960, 90). -/
theorem dispose_gain_identity_witness :
    pool_step 2 ⟨150, some 1600⟩ ⟨EvKind.Sell, 0, 60, some 15⟩ =
      .ok (⟨90, some 960⟩, some 260) := by
  rw [dispose_gain_identity 2 ⟨150, some 1600⟩ ⟨EvKind.Sell, 0, 60, some 15⟩
    1600 15 rfl (by norm_num) rfl rfl (by norm_num)]
  norm_num

/-- Claim C4: a Dispose arriving when `unitsHeld = 0` never reaches the
oversell check: the raised error is the division-by-zero error from the
allowable-cost expression. -/
theorem dispose_zero_units_zero_division (i : ℕ) (st : PoolState) (e : Event)
    (hk : e.kind = EvKind.Sell) (h0 : st.holdings_units = 0) :
    pool_step i st e = .error (.zeroDivision i) := by
  simp [pool_step, hk, h0]

/-- Witness for C4: a lone Dispose of 1 unit from the empty pool raises
the division error at row 0. -/
theorem dispose_zero_units_zero_division_witness :
    pool_step 0 initState ⟨EvKind.Sell, 0, 1, some 10⟩ =
      .error (.zeroDivision 0) :=
  dispose_zero_units_zero_division 0 initState ⟨EvKind.Sell, 0, 1, some 10⟩ rfl rfl

/-- Claim C10: from any pool state with `unitsHeld > 0` (and an actual
pool-cost value), a single Dispose of exactly `unitsHeld` units drives
both `unitsHeld` and `poolCostHome` to zero, exactly. -/
theorem full_liquidation (i : ℕ) (st : PoolState) (e : Event) (g : ℚ)
    (hk : e.kind = EvKind.Sell) (hu : 0 < st.holdings_units)
    (hg : st.holdings_gbp = some g) (hsold : e.sold = st.holdings_units) :
    ∃ gain, pool_step i st e = .ok (⟨0, some 0⟩, gain) := by
  refine ⟨fvSub (fvMulQ e.price_gbp e.sold)
    (fvDivQ (fvMulQ st.holdings_gbp e.sold) st.holdings_units), ?_⟩
  simp only [pool_step, hk, hsold]
  rw [if_neg (ne_of_gt hu), if_neg (by simp)]
  have hdiv : g * st.holdings_units / st.holdings_units = g := by
    rw [mul_div_assoc, div_self (ne_of_gt hu), mul_one]
  simp [hg, hsold, fvMulQ, fvDivQ, fvSub, hdiv]

/-- Witness for C10: disposing all 90 units of the pool (960, 90) leaves
the pool at exactly (0, 0). -/
theorem full_liquidation_witness :
    ∃ gain, pool_step 3 ⟨90, some 960⟩ ⟨EvKind.Sell, 0, 90, some 15⟩ =
      .ok (⟨0, some 0⟩, gain) :=
  full_liquidation 3 ⟨90, some 960⟩ ⟨EvKind.Sell, 0, 90, some 15⟩
    960 rfl (by norm_num) rfl rfl

/-- Claim C7: for a date covered by at least one stored FX range — here
the list is split as `pre ++ r :: post` with `r` covering `d` and no
range of `pre` covering `d`, i.e. `r` is the first covering range in
construction order — `find_rate` returns `r`'s rate, regardless of any
later or tighter covering range in `post`. -/
theorem find_rate_first_covering (pre post : List FxRange) (r : FxRange)
    (d : ℕ) (hr : r.startd ≤ d ∧ d ≤ r.endd)
    (hpre : ∀ q ∈ pre, ¬(q.startd ≤ d ∧ d ≤ q.endd)) :
    find_rate (pre ++ r :: post) d = some r.rate := by
  induction pre with
  | nil => simp [find_rate, hr]
  | cons q qs ih =>
      simp only [List.cons_append, find_rate, if_neg (hpre q (by simp))]
      exact ih (fun q' hq' => hpre q' (by simp [hq']))

/-- Witness for C7: date 7 lies in the second and third stored ranges,
which overlap; the first covering one (rate 3), not the latest (rate 4)
nor the tightest (the third is tighter), is returned. -/
theorem find_rate_first_covering_witness :
    find_rate [⟨0, 3, 5⟩, ⟨5, 15, 3⟩, ⟨6, 8, 4⟩] 7 = some 3 :=
  find_rate_first_covering [⟨0, 3, 5⟩] [⟨6, 8, 4⟩] ⟨5, 15, 3⟩ 7
    (by norm_num) (by norm_num)

/-- Every prefix of a completing run, started from a state with
non-negative units, again completes with non-negative units, provided
every Acquire in the stream carries a non-negative unit count. -/
theorem pool_run_nonneg_take (es : List Event) (i : ℕ) (st st'' : PoolState)
    (h : pool_run i st es = .ok st'') (hu : 0 ≤ st.holdings_units)
    (hvalid : ∀ e ∈ es, e.kind = EvKind.Buy → 0 ≤ e.issued) (n : ℕ) :
    ∃ st', pool_run i st (es.take n) = .ok st' ∧ 0 ≤ st'.holdings_units := by
  induction es generalizing n i st with
  | nil =>
      refine ⟨st, ?_, hu⟩
      simp [pool_run]
  | cons e es ih =>
      cases n with
      | zero => exact ⟨st, rfl, hu⟩
      | succ n =>
          rw [pool_run] at h
          cases hstep : pool_step i st e with
          | error err =>
              rw [hstep] at h
              exact absurd h (by simp)
          | ok p =>
              obtain ⟨st1, g1⟩ := p
              rw [hstep] at h
              have h1 : 0 ≤ st1.holdings_units :=
                pool_step_nonneg i st st1 e g1 hu (hvalid e (by simp)) hstep
              obtain ⟨st', hrun, hnn⟩ :=
                ih (i + 1) st1 h h1 (fun e' he' => hvalid e' (by simp [he'])) n
              refine ⟨st', ?_, hnn⟩
              rw [List.take_succ_cons, pool_run, hstep]
              exact hrun

/-- Claim C5: on an event sequence respecting the data-model invariant
(each Acquire carries a non-negative unit count) on which the fold
completes without raising, `unitsHeld ≥ 0` holds after every single
event transition, i.e. after every prefix of the stream. -/
theorem units_nonneg_invariant (es : List Event) (r : List FV × List FV)
    (hvalid : ∀ e ∈ es, e.kind = EvKind.Buy → 0 ≤ e.issued)
    (hok : get_gains_and_holdings es = .ok r) :
    ∀ n, ∃ st, pool_run 0 initState (es.take n) = .ok st ∧
      0 ≤ st.holdings_units := by
  obtain ⟨stf, hstf⟩ := pool_run_ok_of_gg es 0 initState r hok
  exact pool_run_nonneg_take es 0 initState stf hstf (by norm_num [initState]) hvalid

/-- Witness for C5: the Scenario A stream (two Acquires, one Dispose)
completes, and every prefix leaves a non-negatively stocked pool. -/
theorem units_nonneg_invariant_witness :
    ∃ st, pool_run 0 initState
      ([⟨EvKind.Buy, 100, 0, some 10⟩, ⟨EvKind.Buy, 50, 0, some 12⟩,
        ⟨EvKind.Sell, 0, 60, some 15⟩].take 2) = .ok st ∧
      0 ≤ st.holdings_units :=
  units_nonneg_invariant _ ([some 0, some 0, some 260], [some 1000, some 1600, some 960])
    (by norm_num)
    (by norm_num [get_gains_and_holdings, get_gains_and_holdings_from, pool_step,
      initState, fvAdd, fvMulQ, fvSub, fvDivQ]) 2

/-- Claim C2 (amended: units held positive when the oversized Dispose is
reached): once the fold reaches a Dispose whose units exceed the
positive units then held, it raises the oversell error carrying that
event's position, so the run returns no gains or holdings lists at
all — the `GainRecord`s of the earlier events are discarded with the
exception. -/
theorem oversell_aborts (pre : List Event) (e : Event) (post : List Event)
    (st : PoolState) (hpre : pool_run 0 initState pre = .ok st)
    (hk : e.kind = EvKind.Sell) (hpos : 0 < st.holdings_units)
    (hover : st.holdings_units < e.sold) :
    get_gains_and_holdings (pre ++ e :: post) = .error (.oversell pre.length) := by
  have hstep : pool_step pre.length st e = .error (.oversell pre.length) := by
    simp only [pool_step, hk]
    rw [if_neg (ne_of_gt hpos), if_pos (by linarith)]
  apply gg_from_error_of_pool_run
  rw [pool_run_append, hpre]
  dsimp only
  rw [Nat.zero_add, pool_run, hstep]

/-- Witness for C2 (amended): after Scenario A's two Acquires the pool
holds 150 units; a Dispose of 200 units at stream position 2 aborts the
whole run with the oversell error at index 2. -/
theorem oversell_aborts_witness :
    get_gains_and_holdings
      [⟨EvKind.Buy, 100, 0, some 10⟩, ⟨EvKind.Buy, 50, 0, some 12⟩,
       ⟨EvKind.Sell, 0, 200, some 15⟩] = .error (.oversell 2) := by
  have h := oversell_aborts
    [⟨EvKind.Buy, 100, 0, some 10⟩, ⟨EvKind.Buy, 50, 0, some 12⟩]
    ⟨EvKind.Sell, 0, 200, some 15⟩ [] ⟨150, some 1600⟩
    (by norm_num [pool_run, pool_step, initState, fvAdd, fvMulQ])
    rfl (by norm_num) (by norm_num)
  simpa using h

/-- Counterexample to C2 as stated: a Dispose of 1 unit against the empty
pool is a Dispose whose units exceed the units then held (0), yet the
fold raises the division-by-zero error at row 0, not the oversell
error. -/
theorem oversell_zero_held_counterexample :
    get_gains_and_holdings [⟨EvKind.Sell, 0, 1, some 10⟩] =
      .error (.zeroDivision 0) ∧
    ¬ ∃ j, get_gains_and_holdings [⟨EvKind.Sell, 0, 1, some 10⟩] =
      .error (.oversell j) := by
  have h : get_gains_and_holdings [⟨EvKind.Sell, 0, 1, some 10⟩] =
      .error (.zeroDivision 0) := by
    norm_num [get_gains_and_holdings, get_gains_and_holdings_from, pool_step, initState]
  refine ⟨h, ?_⟩
  rintro ⟨j, hj⟩
  rw [h] at hj
  exact absurd hj (by simp)

/-- Claim C6: every Acquire adds `units * priceHome` to `poolCostHome`
and `units` to `unitsHeld` and emits a zero gain, so a pure-Acquire run
from the empty pool ends with `poolCostHome = Σ units_i * priceHome_i`
and `unitsHeld = Σ units_i`, with an all-zero gains column. -/
theorem acquisitions_conserve (es : List Event) (price : Event → ℚ)
    (hbuy : ∀ e ∈ es, e.kind = EvKind.Buy)
    (hp : ∀ e ∈ es, e.price_gbp = some (price e)) :
    pool_run 0 initState es =
      .ok ⟨(es.map Event.issued).sum,
           some ((es.map (fun e => e.issued * price e)).sum)⟩ ∧
    ∃ hs, get_gains_and_holdings es =
      .ok (es.map (fun _ => (some 0 : FV)), hs) := by
  constructor
  · rw [show initState = (⟨0, some 0⟩ : PoolState) from rfl,
      pool_run_buys es 0 0 (some 0) hbuy, foldl_fvAdd_some es price 0 hp]
    norm_num
  · exact gg_from_buys es 0 initState hbuy

/-- Witness for C6: Scenario A's two Acquires accumulate
`100*10 + 50*12 = 1600` of pool cost over `150` units, emitting zero
gains. -/
theorem acquisitions_conserve_witness :
    pool_run 0 initState
      [⟨EvKind.Buy, 100, 0, some 10⟩, ⟨EvKind.Buy, 50, 0, some 12⟩] =
      .ok ⟨150, some 1600⟩ ∧
    ∃ hs, get_gains_and_holdings
      [⟨EvKind.Buy, 100, 0, some 10⟩, ⟨EvKind.Buy, 50, 0, some 12⟩] =
      .ok ([some 0, some 0], hs) := by
  have h := acquisitions_conserve
    [⟨EvKind.Buy, 100, 0, some 10⟩, ⟨EvKind.Buy, 50, 0, some 12⟩]
    (fun e => e.price_gbp.getD 0) (by norm_num) (by norm_num)
  obtain ⟨h1, hs, h2⟩ := h
  refine ⟨?_, hs, ?_⟩
  · rw [h1]; norm_num
  · rw [h2]; norm_num

/-- Claim C9: the timeline merge outputs a permutation of the
concatenation of the two input sequences, sorted by date ascending
(every event's date is at most the next event's date — indeed at most
every later event's date). -/
theorem timeline_merge_perm_sorted (rel sal : List Row) :
    (timeline_merge rel sal).Perm (rel ++ sal) ∧
    (timeline_merge rel sal).Pairwise (fun a b => a.date ≤ b.date) := by
  constructor
  · exact List.mergeSort_perm (rel ++ sal) _
  · have h := @List.sorted_mergeSort Row (fun a b => decide (a.date ≤ b.date))
      (fun a b c hab hbc => by
        simp only [decide_eq_true_eq] at hab hbc ⊢
        omega)
      (fun a b => by
        rcases Nat.le_total a.date b.date with h | h <;> simp [h])
      (rel ++ sal)
    exact h.imp (fun hab => by simpa using hab)

/-- Counterexample to C1 as stated: with an empty FX table, date 5 is
covered by no range, yet `find_rate` returns `None` (a substituted
missing value, not a raised error), and the full run over one release
dated 5 completes, returning an output row whose rate-derived values are
NaN — it does not abort. -/
theorem missing_rate_counterexample :
    find_rate [] 5 = none ∧
    mainRun [⟨5, 100, 0, 100, 10⟩] none [] =
      .ok ([⟨EvKind.Buy, 100, 0, none⟩], [some 0], [none]) := by
  refine ⟨rfl, ?_⟩
  simp [mainRun, runEvents, timeline_merge, releaseToRow, find_rate, toEvent,
    derivePrice, get_gains_and_holdings, get_gains_and_holdings_from, pool_step,
    initState, fvAdd, fvMulQ]

/-- Claim C1 (amended): for an event date covered by no FX range, the
rate lookup returns `None` — a missing value, not an error — and
processing does not abort on its account: a releases-only run always
completes and produces its output rows, whatever the coverage of the
rate table (the missing rate only turns the affected home-currency
values into NaN). -/
theorem missing_rate_no_error (ranges : List FxRange) (d : ℕ)
    (h : ∀ r ∈ ranges, ¬(r.startd ≤ d ∧ d ≤ r.endd)) :
    find_rate ranges d = none ∧
    ∀ releases : List RawRelease, ∃ out, mainRun releases none ranges = .ok out :=
  ⟨find_rate_none ranges d h, fun releases => mainRun_releases_ok releases ranges⟩

/-- Witness for C1 (amended): date 5 is outside the single stored range
10..20; its lookup yields `None` and every releases-only run against
that table completes. -/
theorem missing_rate_no_error_witness :
    find_rate [⟨10, 20, 2⟩] 5 = none ∧
    ∀ releases : List RawRelease,
      ∃ out, mainRun releases none [⟨10, 20, 2⟩] = .ok out :=
  missing_rate_no_error [⟨10, 20, 2⟩] 5 (by norm_num)

/-- Claim C8: `load_sales` fails exactly when one of the three fields
(date, share count, price) cannot be resolved by `find_col`
(case-insensitive priority over the alias lists, substring-containment
fallback); the error carries the full set of available column names;
on success the three resolved columns are returned; and under a failed
resolution the whole run aborts with that error — before any sales FX
lookup or any pooling, whatever the rate table and event data. -/
theorem sales_schema_resolution (cols : List String) :
    (load_sales_schema cols = .error (.missingColumns cols) ↔
      (find_col cols CANDIDATE_DATE = none ∨
       find_col cols CANDIDATE_SHARES = none ∨
       find_col cols CANDIDATE_PRICE = none)) ∧
    (∀ d s p, find_col cols CANDIDATE_DATE = some d →
      find_col cols CANDIDATE_SHARES = some s →
      find_col cols CANDIDATE_PRICE = some p →
      load_sales_schema cols = .ok (d, s, p)) ∧
    (∀ (releases : List RawRelease) (rows : List RawSale) (ranges : List FxRange),
      (find_col cols CANDIDATE_DATE = none ∨
       find_col cols CANDIDATE_SHARES = none ∨
       find_col cols CANDIDATE_PRICE = none) →
      mainRun releases (some ⟨cols, rows⟩) ranges = .error (.schema cols)) := by
  have herr : (find_col cols CANDIDATE_DATE = none ∨
      find_col cols CANDIDATE_SHARES = none ∨
      find_col cols CANDIDATE_PRICE = none) →
      load_sales_schema cols = .error (.missingColumns cols) := by
    intro h
    unfold load_sales_schema
    cases hd : find_col cols CANDIDATE_DATE with
    | none => rfl
    | some d =>
        cases hs : find_col cols CANDIDATE_SHARES with
        | none => rfl
        | some s =>
            cases hp : find_col cols CANDIDATE_PRICE with
            | none => rfl
            | some p =>
                rw [hd, hs, hp] at h
                rcases h with h | h | h <;> exact absurd h (by simp)
  have hok : ∀ d s p, find_col cols CANDIDATE_DATE = some d →
      find_col cols CANDIDATE_SHARES = some s →
      find_col cols CANDIDATE_PRICE = some p →
      load_sales_schema cols = .ok (d, s, p) := by
    intro d s p hd hs hp
    unfold load_sales_schema
    rw [hd, hs, hp]
  refine ⟨⟨?_, herr⟩, hok, ?_⟩
  · intro he
    cases hd : find_col cols CANDIDATE_DATE with
    | none => exact .inl rfl
    | some d =>
        cases hs : find_col cols CANDIDATE_SHARES with
        | none => exact .inr (.inl rfl)
        | some s =>
            cases hp : find_col cols CANDIDATE_PRICE with
            | none => exact .inr (.inr rfl)
            | some p =>
                rw [hok d s p hd hs hp] at he
                exact absurd he (by simp)
  · intro releases rows ranges h
    have hload := herr h
    simp only [mainRun]
    rw [hload]

/-- Witness for C8: a sales CSV with columns `Foo, Bar` resolves none of
the three fields, so loading fails listing exactly those columns and
any surrounding run aborts with that error. -/
theorem sales_schema_resolution_witness :
    load_sales_schema ["Foo", "Bar"] = .error (.missingColumns ["Foo", "Bar"]) ∧
    ∀ (releases : List RawRelease) (rows : List RawSale) (ranges : List FxRange),
      mainRun releases (some ⟨["Foo", "Bar"], rows⟩) ranges =
        .error (.schema ["Foo", "Bar"]) := by
  have h := sales_schema_resolution ["Foo", "Bar"]
  have hnone : find_col ["Foo", "Bar"] CANDIDATE_DATE = none ∨
      find_col ["Foo", "Bar"] CANDIDATE_SHARES = none ∨
      find_col ["Foo", "Bar"] CANDIDATE_PRICE = none := .inl (by decide)
  exact ⟨h.1.mpr hnone, fun releases rows ranges => h.2.2 releases rows ranges hnone⟩

end CostBasis
